import Mathlib

/-! # Verification of the obsidian-watcher note-mutation engine

Shallow embedding of `src/main.py` (single-file watcher that inserts
de-duplicated Markdown links under an `## Inbox` section of a daily note).
Documents are ordered lists of lines (`List String`), mirroring the
`text.splitlines()` representation the program edits in place.  Python
string primitives (`strip`, `split`, `in`, `re` patterns used by the
program) are embedded as executable functions over `List Char`.
-/

namespace ObsidianWatcher

/-- Module-level constant `INBOX_HEADER` (src/main.py:19). -/
def INBOX_HEADER : String := "## Inbox"

/-- Module-level constant `SAVED_ARTICLES_HEADER` (src/main.py:20). -/
def SAVED_ARTICLES_HEADER : String := "### Saved Articles"

/-- Python `str.lstrip()` on the character list of a line. -/
def pyLstripData (l : List Char) : List Char := l.dropWhile Char.isWhitespace

/-- Python `str.rstrip()` on the character list of a line. -/
def pyRstripData (l : List Char) : List Char := (l.reverse.dropWhile Char.isWhitespace).reverse

/-- Python `str.strip()` on the character list of a line. -/
def pyStripData (l : List Char) : List Char := pyRstripData (pyLstripData l)

/-- Python `str.strip()`. -/
def pyStrip (s : String) : String := ⟨pyStripData s.data⟩

/-- Python `str.rstrip()`. -/
def pyRstrip (s : String) : String := ⟨pyRstripData s.data⟩

/-- Embeds `_header_level` (src/main.py:75-79): `None` when the
left-stripped line does not start with `#`, otherwise the count of leading
`#` characters. -/
def _header_level (line : String) : Option Nat :=
  match pyLstripData line.data with
  | [] => none
  | c :: rest => if c = '#' then some (((c :: rest).takeWhile (fun x => x = '#')).length) else none

/-- `lines[i]` read with an out-of-range default (every use in the program
is guarded by `i < len(lines)`). -/
def lineAt (lines : List String) (i : Nat) : String := lines.getD i ""

/-- First element of an index list satisfying `p`; used to model the
program's `for i in range(a, b)` search loops. -/
def scanIdx (p : Nat → Bool) : List Nat → Option Nat
  | [] => none
  | j :: rest => if p j then some j else scanIdx p rest

/-- Whether `lines[j]` is a heading of level at most `thr`. -/
def levelLEb (lines : List String) (j thr : Nat) : Bool :=
  match _header_level (lineAt lines j) with
  | some l => decide (l ≤ thr)
  | none => false

/-- Boundary scan of `add_link_under_inbox` (src/main.py:119-123 and
155-159): the first index `i ∈ [start, stop)` whose line is a heading of
level ≤ `thr`, else `stop` (the loop's default). -/
def findBoundary (lines : List String) (thr stop start : Nat) : Nat :=
  (scanIdx (fun j => levelLEb lines j thr) (List.range' start (stop - start))).getD stop

/-- Search loop `for i in range(start, stop): if p(lines[i]): ...` returning
the first hit. -/
def findInRange (lines : List String) (p : String → Bool) (start stop : Nat) : Option Nat :=
  scanIdx (fun j => p (lineAt lines j)) (List.range' start (stop - start))

/-- Python `list.insert(n, a)` (clamps to append when `n ≥ len`). -/
def pyInsert {α : Type} (n : Nat) (a : α) (l : List α) : List α :=
  l.take n ++ a :: l.drop n

/-- Result of locating or creating the `## Inbox` section
(src/main.py:106-123): possibly-extended line list, index of the heading
line, and the half-open content range `[inboxStart, inboxEnd)`. -/
structure InboxRange where
  lines : List String
  inboxIdx : Nat
  inboxStart : Nat
  inboxEnd : Nat

/-- Embeds src/main.py:106-123: find the first line whose stripped text is
`## Inbox`; if absent append `["", "## Inbox", ""]`; the content range runs
from just after the heading to the first heading of level ≤ 2. -/
def locateInboxRange (lines0 : List String) : InboxRange :=
  match findInRange lines0 (fun l => pyStrip l == INBOX_HEADER) 0 lines0.length with
  | some i => ⟨lines0, i, i + 1, findBoundary lines0 2 lines0.length (i + 1)⟩
  | none =>
    let lines := lines0 ++ ["", INBOX_HEADER, ""]
    ⟨lines, lines0.length + 1, lines0.length + 2,
      findBoundary lines 2 lines.length (lines0.length + 2)⟩

/-- `_header_level(sub_header) or 3` (src/main.py:129): Python `or` falls
back to 3 on `None` (and on a falsy 0). -/
def subLevelOf (sh : String) : Nat :=
  match _header_level sh with
  | some l => if l = 0 then 3 else l
  | none => 3

/-- The block-selection state of `add_link_under_inbox` after lines
106-159: final line list plus inbox and chosen-block ranges. -/
structure BlockInfo where
  lines : List String
  inboxIdx : Nat
  inboxStart : Nat
  inboxEnd : Nat
  blockStart : Nat
  blockEnd : Nat

/-- The sub-header creation branch of `add_link_under_inbox`
(src/main.py:138-150): ensure a blank right after `## Inbox` when its first
content line is non-blank, insert the sub-header and a following blank, and
shift the Inbox end by the number of inserted lines. -/
def createSub (r : InboxRange) (sh : String) : BlockInfo :=
  let needBlank := decide (r.inboxStart < r.lines.length) &&
    !(pyStrip (lineAt r.lines r.inboxStart) == "")
  let insertAt := if needBlank then r.inboxStart + 1 else r.inboxStart
  let lines1 := if needBlank then pyInsert r.inboxStart "" r.lines else r.lines
  let e1 := if needBlank then r.inboxEnd + 1 else r.inboxEnd
  let lines2 := pyInsert (insertAt + 1) "" (pyInsert insertAt sh lines1)
  ⟨lines2, r.inboxIdx, r.inboxStart, e1 + 2, insertAt + 1,
    findBoundary lines2 (subLevelOf sh) (e1 + 2) (insertAt + 1)⟩

/-- Embeds src/main.py:106-159: locate/create `## Inbox`, then, when a
sub-header is requested, locate it inside the Inbox range or create it
(blank separator, heading, blank), and bound the chosen block by the next
heading of level ≤ the sub-header's level. -/
def computeBlock (lines0 : List String) (sub : Option String) : BlockInfo :=
  let r := locateInboxRange lines0
  match sub with
  | none => ⟨r.lines, r.inboxIdx, r.inboxStart, r.inboxEnd, r.inboxStart, r.inboxEnd⟩
  | some sh =>
    match findInRange r.lines (fun l => pyStrip l == sh) r.inboxStart r.inboxEnd with
    | some si =>
      ⟨r.lines, r.inboxIdx, r.inboxStart, r.inboxEnd, si + 1,
        findBoundary r.lines (subLevelOf sh) r.inboxEnd (si + 1)⟩
    | none => createSub r sh

/-- Splits a character list at the first occurrence of `c`, returning the
characters before it and the remainder after it. -/
def splitAtChar (c : Char) : List Char → Option (List Char × List Char)
  | [] => none
  | x :: xs =>
    if x = c then some ([], xs)
    else
      match splitAtChar c xs with
      | some p => some (x :: p.1, p.2)
      | none => none

/-- Leftmost match of the inline-link pattern `\[[^\]]*\]\(([^)]+)\)`
(src/main.py:163), returning capture group 1: scan for `[`, take the run of
non-`]` characters, require `](`, then a non-empty run of non-`)`
characters closed by `)`; on failure resume the scan one position later. -/
def searchLink : List Char → Option (List Char)
  | [] => none
  | c :: rest =>
    if c = '[' then
      match splitAtChar ']' rest with
      | some p =>
        match p.2 with
        | [] => searchLink rest
        | c2 :: rest2 =>
          if c2 = '(' then
            match splitAtChar ')' rest2 with
            | some q => if q.1 = [] then searchLink rest else some q.1
            | none => searchLink rest
          else searchLink rest
      | none => searchLink rest
    else searchLink rest

/-- Python `str.split("/")` accumulator. -/
def pySplitAux (sep : Char) : List Char → List Char → List String
  | [], acc => [⟨acc.reverse⟩]
  | c :: rest, acc =>
    if c = sep then ⟨acc.reverse⟩ :: pySplitAux sep rest []
    else pySplitAux sep rest (c :: acc)

/-- Path string split on `/` separators. -/
def splitSlash (s : String) : List String := pySplitAux '/' s.data []

/-- Lexical `Path.resolve()` over path segments: drop empty and `.`
segments, let `..` pop the last kept segment. -/
def resolveSegs (segs : List String) : List String :=
  segs.foldl
    (fun acc seg =>
      if seg = "" then acc
      else if seg = "." then acc
      else if seg = ".." then acc.dropLast
      else acc ++ [seg]) []

/-- Embeds `_normalize_md_link_url` (src/main.py:82-91): web links pass
through unchanged; otherwise the string is a path, joined to `base_dir`
when relative, resolved (`.`/`..` collapsed; symbolic-link resolution is a
filesystem effect and is modelled lexically) and rendered in `/`-separated
absolute form.  `base_dir` is the already-resolved segment list of the
daily note's directory. -/
def _normalize_md_link_url (url : String) (base_dir : List String) : String :=
  if "http://".data.isPrefixOf url.data || "https://".data.isPrefixOf url.data then url
  else
    let parts := splitSlash url
    let segs :=
      if "/".data.isPrefixOf url.data then resolveSegs parts
      else resolveSegs (base_dir ++ parts)
    "/" ++ String.intercalate "/" segs

/-- Normalized target extracted from one block line (src/main.py:166-169):
the regex match's group 1, stripped, normalized. -/
def lineTarget (ln : String) (base_dir : List String) : Option String :=
  (searchLink ln.data).map (fun tg => _normalize_md_link_url (pyStrip ⟨tg⟩) base_dir)

/-- The chosen block `lines[block_start:block_end]` (src/main.py:162). -/
def blockLines (b : BlockInfo) : List String :=
  (b.lines.drop b.blockStart).take (b.blockEnd - b.blockStart)

/-- `blockLines` of the block selected for a document and sub-header. -/
def blockOf (lines0 : List String) (sub : Option String) : List String :=
  blockLines (computeBlock lines0 sub)

/-- The rendered bullet `- [title](link_url)` (src/main.py:175). -/
def bulletFor (title link_url : String) : String :=
  "- [" ++ title ++ "](" ++ link_url ++ ")"

/-- The insertion step of `add_link_under_inbox` (src/main.py:177-187):
keep a blank as the block's first line when it is non-blank, then insert
the bullet. -/
def insertBullet (b : BlockInfo) (bullet : String) : List String :=
  if decide (b.blockStart < b.lines.length) &&
      !(pyStrip (lineAt b.lines b.blockStart) == "") then
    pyInsert (b.blockStart + 1) bullet (pyInsert b.blockStart "" b.lines)
  else pyInsert b.blockStart bullet b.lines

/-- Embeds `add_link_under_inbox` (src/main.py:94-189) at document level:
`none` models the early `return` (no write), `some lines` the mutated line
list that is then serialized and atomically written. -/
def add_link_under_inbox (lines0 : List String) (title link_url : String)
    (sub : Option String) (base_dir : List String) : Option (List String) :=
  let b := computeBlock lines0 sub
  let existing := (blockLines b).filterMap (fun ln => lineTarget ln base_dir)
  let new_target := _normalize_md_link_url link_url base_dir
  if existing.contains new_target then none
  else some (insertBullet b (bulletFor title link_url))

/-- Side conditions on the `sub_header` argument under which re-insertion
is a no-op; the program's two calls (`None` and `"### Saved Articles"`,
src/main.py:268) satisfy them: a stripped heading of level at least 3, so
the created sub-header can never clip the enclosing Inbox range. -/
def SubOK (sub : Option String) : Prop :=
  sub = none ∨ ∃ sh l, sub = some sh ∧ pyStrip sh = sh ∧
    _header_level sh = some l ∧ 3 ≤ l

/-- The document state after one mutator call: unchanged when no write
occurred, otherwise the written line list. -/
def applyAddLink (lines0 : List String) (title link_url : String)
    (sub : Option String) (base_dir : List String) : List String :=
  (add_link_under_inbox lines0 title link_url sub base_dir).getD lines0

/-- Serialization of the document (src/main.py:188):
`"\n".join(lines).rstrip() + "\n"`. -/
def serializeDoc (lines : List String) : String :=
  pyRstrip (String.intercalate "\n" lines) ++ "\n"

/-- Python `str.splitlines()` for `\n`-separated text: split on `\n` and
drop the empty fragment a trailing newline would create; the empty string
yields no lines. -/
def pySplitlines (s : String) : List String :=
  match s.data with
  | [] => []
  | l =>
    let parts := pySplitAux '\n' l []
    if l.getLast? = some '\n' then parts.dropLast else parts

/-- File-level mutator run (src/main.py:103-104 and 188-189): read and
split the text, mutate, and either leave the file as it was (no write) or
serialize the new line list. -/
def add_link_text (text title link_url : String) (sub : Option String)
    (base_dir : List String) : String :=
  match add_link_under_inbox (pySplitlines text) title link_url sub base_dir with
  | none => text
  | some l => serializeDoc l

/-- Content written for a fresh daily note (src/main.py:43):
`f"# {today_stamp()}\n\n{INBOX_HEADER}\n\n"`. -/
def freshDailyNoteText (today : String) : String :=
  "# " ++ today ++ "\n\n" ++ INBOX_HEADER ++ "\n\n"

/-- Substring scan modelling Python's `needle in haystack`. -/
def containsSub (needle : List Char) : List Char → Bool
  | [] => needle.isPrefixOf ([] : List Char)
  | c :: rest => needle.isPrefixOf (c :: rest) || containsSub needle rest

/-- Python `needle in haystack` on strings. -/
def pyContains (hay needle : String) : Bool := containsSub needle.data hay.data

/-- Embeds the existing-file branch of `ensure_daily_note`
(src/main.py:45-50): when the full text contains the substring `## Inbox`
nothing is written (`none`); otherwise the right-stripped text plus
`"\n\n## Inbox\n\n"` is written. -/
def ensure_daily_note_existing (text : String) : Option String :=
  if pyContains text INBOX_HEADER then none
  else some (pyRstrip text ++ "\n\n" ++ INBOX_HEADER ++ "\n\n")

/-- Strip of the editor-temp prefix `^\.conform\.\d+\.` (src/main.py:68):
the literal `.conform.`, one or more digits, and a dot are removed when
present. -/
def stripConform (name : String) : String :=
  if ".conform.".data.isPrefixOf name.data then
    let rest := name.data.drop 9
    let ds := rest.takeWhile Char.isDigit
    match ds, rest.drop ds.length with
    | _ :: _, '.' :: tail => ⟨tail⟩
    | _, _ => name
  else name

/-- `re.fullmatch(r"(?P<ymd>\d{8})\d{4}\.md", clean)` (src/main.py:69):
twelve digits followed by the literal `.md`. -/
def matchesNotePattern (clean : List Char) : Bool :=
  clean.length == 15 && (clean.take 12).all Char.isDigit &&
    clean.drop 12 == ['.', 'm', 'd']

/-- Embeds `_is_note_from_today` (src/main.py:60-72) with the current
local date (`datetime.now().strftime("%Y%m%d")`) passed as `today`. -/
def _is_note_from_today (today name : String) : Bool :=
  let clean := (stripConform name).data
  if matchesNotePattern clean then (⟨clean.take 8⟩ : String) == today else false

/-- A filesystem snapshot: contents by path. -/
def FsState : Type := String → Option String

/-- Point update of a filesystem snapshot. -/
def fsUpdate (fs : FsState) (p : String) (v : Option String) : FsState :=
  fun q => if q = p then v else fs q

/-- Observable states of `_atomic_write` (src/main.py:54-57), modelled as
a trace: `tmp.write_text` (tmp path `path + ".tmp"`, since daily notes end
in `.md` the `with_suffix` call appends) may be observed at any partial
prefix of the content; `os.replace` then atomically installs the full
content at `path` and removes the temp file. -/
def atomicWriteTrace (fs : FsState) (path content : String) : List FsState :=
  ((List.range (content.length + 1)).map
      (fun k => fsUpdate fs (path ++ ".tmp") (some ⟨content.data.take k⟩)))
    ++ [fsUpdate (fsUpdate fs (path ++ ".tmp") none) path (some content)]

/-! ## Scan-loop characterizations -/

theorem scanIdx_range'_eq_some_iff {p : Nat → Bool} {i n j : Nat} :
    scanIdx p (List.range' i n) = some j ↔
      i ≤ j ∧ j < i + n ∧ p j = true ∧ ∀ k, i ≤ k → k < j → p k = false := by
  induction n generalizing i with
  | zero =>
    constructor
    · intro h; exact Option.noConfusion h
    · rintro ⟨h1, h2, -, -⟩; omega
  | succ n ih =>
    rw [List.range'_succ]
    show (if p i = true then some i else scanIdx p (List.range' (i + 1) n)) = some j ↔ _
    by_cases hp : p i = true
    · rw [if_pos hp]
      constructor
      · rintro h
        injection h with h; subst h
        exact ⟨Nat.le_refl i, by omega, hp, fun k hk1 hk2 => absurd hk1 (by omega)⟩
      · rintro ⟨h1, _, _, hmin⟩
        by_cases hij : j = i
        · rw [hij]
        · have : p i = false := hmin i (Nat.le_refl i) (by omega)
          rw [hp] at this; exact absurd this (by simp)
    · have hp' : p i = false := by revert hp; cases p i <;> simp
      rw [if_neg hp, ih]
      constructor
      · rintro ⟨h1, h2, h3, hmin⟩
        refine ⟨by omega, by omega, h3, fun k hk1 hk2 => ?_⟩
        by_cases hk : k = i
        · rw [hk]; exact hp'
        · exact hmin k (by omega) hk2
      · rintro ⟨h1, h2, h3, hmin⟩
        have hij : i ≠ j := by
          intro h; rw [← h] at h3; rw [hp'] at h3; exact absurd h3 (by simp)
        exact ⟨by omega, by omega, h3, fun k hk1 hk2 => hmin k (by omega) hk2⟩

theorem scanIdx_range'_eq_none_iff {p : Nat → Bool} {i n : Nat} :
    scanIdx p (List.range' i n) = none ↔
      ∀ k, i ≤ k → k < i + n → p k = false := by
  induction n generalizing i with
  | zero =>
    constructor
    · intro _ k h1 h2; omega
    · intro _; rfl
  | succ n ih =>
    rw [List.range'_succ]
    show (if p i = true then some i else scanIdx p (List.range' (i + 1) n)) = none ↔ _
    by_cases hp : p i = true
    · rw [if_pos hp]
      constructor
      · intro h; exact Option.noConfusion h
      · intro h
        have := h i (Nat.le_refl i) (by omega)
        rw [hp] at this; exact absurd this (by simp)
    · have hp' : p i = false := by revert hp; cases p i <;> simp
      rw [if_neg hp, ih]
      constructor
      · intro h k hk1 hk2
        by_cases hk : k = i
        · rw [hk]; exact hp'
        · exact h k (by omega) (by omega)
      · intro h k hk1 hk2
        exact h k (by omega) (by omega)

theorem findBoundary_le {lines : List String} {thr stop start : Nat} (h : start ≤ stop) :
    findBoundary lines thr stop start ≤ stop := by
  unfold findBoundary
  cases hs : scanIdx (fun j => levelLEb lines j thr) (List.range' start (stop - start)) with
  | none => simp
  | some j =>
    have := scanIdx_range'_eq_some_iff.mp hs
    simp only [Option.getD_some]
    omega

theorem le_findBoundary {lines : List String} {thr stop start : Nat} (h : start ≤ stop) :
    start ≤ findBoundary lines thr stop start := by
  unfold findBoundary
  cases hs : scanIdx (fun j => levelLEb lines j thr) (List.range' start (stop - start)) with
  | none => simpa using h
  | some j =>
    have := scanIdx_range'_eq_some_iff.mp hs
    simp only [Option.getD_some]
    omega

theorem findBoundary_min {lines : List String} {thr stop start : Nat} (h : start ≤ stop) :
    ∀ j, start ≤ j → j < findBoundary lines thr stop start →
      levelLEb lines j thr = false := by
  intro j hj1 hj2
  revert hj2
  unfold findBoundary
  cases hs : scanIdx (fun j => levelLEb lines j thr) (List.range' start (stop - start)) with
  | none =>
    intro hj2
    simp only [Option.getD_none] at hj2
    exact scanIdx_range'_eq_none_iff.mp hs j hj1 (by omega)
  | some m =>
    intro hj2
    simp only [Option.getD_some] at hj2
    exact (scanIdx_range'_eq_some_iff.mp hs).2.2.2 j hj1 hj2

theorem findBoundary_hit {lines : List String} {thr stop start : Nat} (h : start ≤ stop)
    (hlt : findBoundary lines thr stop start < stop) :
    levelLEb lines (findBoundary lines thr stop start) thr = true := by
  revert hlt
  unfold findBoundary
  cases hs : scanIdx (fun j => levelLEb lines j thr) (List.range' start (stop - start)) with
  | none => intro hlt; simp only [Option.getD_none] at hlt; omega
  | some m =>
    intro _
    simp only [Option.getD_some]
    exact (scanIdx_range'_eq_some_iff.mp hs).2.2.1

theorem findBoundary_gt {lines : List String} {thr stop start p : Nat}
    (h1 : start ≤ p) (h2 : p < stop)
    (hmin : ∀ j, start ≤ j → j ≤ p → levelLEb lines j thr = false) :
    p < findBoundary lines thr stop start := by
  by_contra hc
  push_neg at hc
  have hs : start ≤ stop := by omega
  have hf1 : start ≤ findBoundary lines thr stop start := le_findBoundary hs
  have hf2 : findBoundary lines thr stop start < stop := by omega
  have hh : levelLEb lines (findBoundary lines thr stop start) thr = true :=
    findBoundary_hit hs hf2
  rw [hmin _ hf1 hc] at hh
  exact absurd hh (by simp)

theorem findBoundary_eq_of {lines : List String} {thr stop start e : Nat}
    (h1 : start ≤ e) (h2 : e ≤ stop)
    (hmin : ∀ j, start ≤ j → j < e → levelLEb lines j thr = false)
    (hend : e = stop ∨ levelLEb lines e thr = true) :
    findBoundary lines thr stop start = e := by
  have hs : start ≤ stop := by omega
  have hle : findBoundary lines thr stop start ≤ stop := findBoundary_le hs
  have hge : start ≤ findBoundary lines thr stop start := le_findBoundary hs
  rcases Nat.lt_trichotomy (findBoundary lines thr stop start) e with hlt | heq | hgt
  · have hhit : levelLEb lines (findBoundary lines thr stop start) thr = true :=
      findBoundary_hit hs (by omega)
    rw [hmin _ hge hlt] at hhit
    exact absurd hhit (by simp)
  · exact heq
  · rcases hend with he | he
    · omega
    · have := findBoundary_min hs e h1 hgt
      rw [he] at this
      exact absurd this (by simp)

theorem findInRange_eq_some_iff {lines : List String} {p : String → Bool}
    {start stop j : Nat} (h : start ≤ stop) :
    findInRange lines p start stop = some j ↔
      start ≤ j ∧ j < stop ∧ p (lineAt lines j) = true ∧
        ∀ k, start ≤ k → k < j → p (lineAt lines k) = false := by
  unfold findInRange
  rw [scanIdx_range'_eq_some_iff]
  constructor
  · rintro ⟨a, b, c, d⟩; exact ⟨a, by omega, c, d⟩
  · rintro ⟨a, b, c, d⟩; exact ⟨a, by omega, c, d⟩

theorem findInRange_eq_none_iff {lines : List String} {p : String → Bool}
    {start stop : Nat} (h : start ≤ stop) :
    findInRange lines p start stop = none ↔
      ∀ k, start ≤ k → k < stop → p (lineAt lines k) = false := by
  unfold findInRange
  rw [scanIdx_range'_eq_none_iff]
  constructor
  · intro hh k hk1 hk2; exact hh k hk1 (by omega)
  · intro hh k hk1 hk2; exact hh k hk1 (by omega)

/-! ## Pointwise access through list surgery -/

theorem lineAt_append_lt {l m : List String} {j : Nat} (h : j < l.length) :
    lineAt (l ++ m) j = lineAt l j := by
  unfold lineAt
  rw [List.getD_eq_getElem?_getD, List.getD_eq_getElem?_getD, List.getElem?_append]
  simp [h]

theorem lineAt_append_ge {l m : List String} {j : Nat} (h : l.length ≤ j) :
    lineAt (l ++ m) j = lineAt m (j - l.length) := by
  unfold lineAt
  rw [List.getD_eq_getElem?_getD, List.getD_eq_getElem?_getD,
    List.getElem?_append_right h]

theorem length_take_of_le {α : Type} {l : List α} {q : Nat} (h : q ≤ l.length) :
    (l.take q).length = q := by
  rw [List.length_take]
  exact Nat.min_eq_left h

theorem length_seg {l mid : List String} {q : Nat} (hq : q ≤ l.length) :
    (l.take q ++ mid ++ l.drop q).length = l.length + mid.length := by
  simp only [List.length_append, length_take_of_le hq, List.length_drop]
  omega

theorem lineAt_seg_lt {l mid : List String} {q j : Nat} (hq : q ≤ l.length) (hj : j < q) :
    lineAt (l.take q ++ mid ++ l.drop q) j = lineAt l j := by
  have hlen : (l.take q).length = q := length_take_of_le hq
  rw [List.append_assoc, lineAt_append_lt (by omega)]
  unfold lineAt
  rw [List.getD_eq_getElem?_getD, List.getD_eq_getElem?_getD, List.getElem?_take]
  simp [hj]

theorem lineAt_seg_mid {l mid : List String} {q j : Nat} (hq : q ≤ l.length)
    (h1 : q ≤ j) (h2 : j < q + mid.length) :
    lineAt (l.take q ++ mid ++ l.drop q) j = lineAt mid (j - q) := by
  have hlen : (l.take q).length = q := length_take_of_le hq
  rw [List.append_assoc, lineAt_append_ge (by omega : (l.take q).length ≤ j), hlen,
    lineAt_append_lt (by omega)]

theorem lineAt_seg_ge {l mid : List String} {q j : Nat} (hq : q ≤ l.length)
    (h : q + mid.length ≤ j) :
    lineAt (l.take q ++ mid ++ l.drop q) j = lineAt l (j - mid.length) := by
  have hlen : (l.take q).length = q := length_take_of_le hq
  rw [List.append_assoc, lineAt_append_ge (by omega : (l.take q).length ≤ j), hlen,
    lineAt_append_ge (by omega : mid.length ≤ j - q)]
  unfold lineAt
  rw [List.getD_eq_getElem?_getD, List.getD_eq_getElem?_getD, List.getElem?_drop]
  have e : q + (j - q - mid.length) = j - mid.length := by omega
  rw [e]

theorem pyInsert_length {α : Type} (n : Nat) (a : α) (l : List α) :
    (pyInsert n a l).length = l.length + 1 := by
  simp only [pyInsert, List.length_append, List.length_take, List.length_cons,
    List.length_drop]
  omega

theorem seg_nil {α : Type} (l : List α) (q : Nat) :
    l.take q ++ ([] : List α) ++ l.drop q = l := by
  simp [List.take_append_drop]

theorem pyInsert_seg {l mid : List String} {q k : Nat} (a : String)
    (hq : q ≤ l.length) (hk : k ≤ mid.length) :
    pyInsert (q + k) a (l.take q ++ mid ++ l.drop q) =
      l.take q ++ (mid.take k ++ a :: mid.drop k) ++ l.drop q := by
  have hlen : (l.take q).length = q := length_take_of_le hq
  have hlen2 : (l.take q ++ mid).length = q + mid.length := by
    simp [List.length_append, hlen]
  unfold pyInsert
  rw [List.take_append_eq_append_take, List.drop_append_eq_append_drop, hlen2]
  have e0 : q + k - (q + mid.length) = 0 := by omega
  rw [e0, List.take_zero, List.drop_zero, List.append_nil]
  rw [List.take_append_eq_append_take, List.drop_append_eq_append_drop, hlen]
  have e1 : q + k - q = k := by omega
  rw [e1, List.take_of_length_le (by omega), List.drop_eq_nil_of_le (by omega)]
  simp [List.append_assoc]

/-! ## Structure of the located Inbox section -/

theorem locateInboxRange_found {lines0 : List String} {i : Nat}
    (hf : findInRange lines0 (fun l => pyStrip l == INBOX_HEADER) 0 lines0.length = some i) :
    locateInboxRange lines0 = ⟨lines0, i, i + 1, findBoundary lines0 2 lines0.length (i + 1)⟩ := by
  simp only [locateInboxRange]
  rw [hf]

theorem locateInboxRange_created {lines0 : List String}
    (hf : findInRange lines0 (fun l => pyStrip l == INBOX_HEADER) 0 lines0.length = none) :
    locateInboxRange lines0 =
      ⟨lines0 ++ ["", INBOX_HEADER, ""], lines0.length + 1, lines0.length + 2,
        findBoundary (lines0 ++ ["", INBOX_HEADER, ""]) 2
          (lines0 ++ ["", INBOX_HEADER, ""]).length (lines0.length + 2)⟩ := by
  simp only [locateInboxRange]
  rw [hf]

theorem locateInboxRange_spec (lines0 : List String) :
    (locateInboxRange lines0).inboxIdx < (locateInboxRange lines0).lines.length ∧
    (pyStrip (lineAt (locateInboxRange lines0).lines (locateInboxRange lines0).inboxIdx)
        == INBOX_HEADER) = true ∧
    (∀ j, j < (locateInboxRange lines0).inboxIdx →
      (pyStrip (lineAt (locateInboxRange lines0).lines j) == INBOX_HEADER) = false) ∧
    (locateInboxRange lines0).inboxStart = (locateInboxRange lines0).inboxIdx + 1 ∧
    (locateInboxRange lines0).inboxEnd =
      findBoundary (locateInboxRange lines0).lines 2
        (locateInboxRange lines0).lines.length (locateInboxRange lines0).inboxStart := by
  cases hf : findInRange lines0 (fun l => pyStrip l == INBOX_HEADER) 0 lines0.length with
  | some i =>
    rw [locateInboxRange_found hf]
    have hs := (findInRange_eq_some_iff (by omega)).mp hf
    exact ⟨hs.2.1, hs.2.2.1, fun j hj => hs.2.2.2 j (by omega) hj, rfl, rfl⟩
  | none =>
    rw [locateInboxRange_created hf]
    have hn := (findInRange_eq_none_iff (by omega)).mp hf
    have hlen : (lines0 ++ ["", INBOX_HEADER, ""]).length = lines0.length + 3 := by simp
    refine ⟨by simp [hlen], ?_, ?_, rfl, rfl⟩
    · rw [show ((⟨lines0 ++ ["", INBOX_HEADER, ""], lines0.length + 1, lines0.length + 2,
          findBoundary (lines0 ++ ["", INBOX_HEADER, ""]) 2
            (lines0 ++ ["", INBOX_HEADER, ""]).length (lines0.length + 2)⟩ : InboxRange)).lines
          = lines0 ++ ["", INBOX_HEADER, ""] from rfl,
        lineAt_append_ge (by simp)]
      have e : lines0.length + 1 - lines0.length = 1 := by omega
      simp only
      rw [e]
      rfl
    · intro j hj
      simp only at hj
      by_cases hjl : j < lines0.length
      · rw [show ((⟨lines0 ++ ["", INBOX_HEADER, ""], lines0.length + 1, lines0.length + 2,
            findBoundary (lines0 ++ ["", INBOX_HEADER, ""]) 2
              (lines0 ++ ["", INBOX_HEADER, ""]).length (lines0.length + 2)⟩ : InboxRange)).lines
            = lines0 ++ ["", INBOX_HEADER, ""] from rfl, lineAt_append_lt hjl]
        exact hn j (by omega) hjl
      · have hj0 : j = lines0.length := by omega
        simp only
        rw [hj0, lineAt_append_ge (by omega)]
        have e : lines0.length - lines0.length = 0 := by omega
        rw [e]
        rfl

theorem locateInboxRange_start_le (lines0 : List String) :
    (locateInboxRange lines0).inboxStart ≤ (locateInboxRange lines0).lines.length := by
  have h := locateInboxRange_spec lines0
  omega

theorem locateInboxRange_end_spec (lines0 : List String) :
    (locateInboxRange lines0).inboxStart ≤ (locateInboxRange lines0).inboxEnd ∧
    (locateInboxRange lines0).inboxEnd ≤ (locateInboxRange lines0).lines.length := by
  have h := locateInboxRange_spec lines0
  have hle := locateInboxRange_start_le lines0
  rw [h.2.2.2.2]
  exact ⟨le_findBoundary hle, findBoundary_le hle⟩

/-! ## Branch equations for `computeBlock` -/

theorem computeBlock_none_eq (lines0 : List String) :
    computeBlock lines0 none =
      ⟨(locateInboxRange lines0).lines, (locateInboxRange lines0).inboxIdx,
       (locateInboxRange lines0).inboxStart, (locateInboxRange lines0).inboxEnd,
       (locateInboxRange lines0).inboxStart, (locateInboxRange lines0).inboxEnd⟩ := rfl

theorem computeBlock_some_found {lines0 : List String} {sh : String} {si : Nat}
    (hf : findInRange (locateInboxRange lines0).lines (fun l => pyStrip l == sh)
      (locateInboxRange lines0).inboxStart (locateInboxRange lines0).inboxEnd = some si) :
    computeBlock lines0 (some sh) =
      ⟨(locateInboxRange lines0).lines, (locateInboxRange lines0).inboxIdx,
       (locateInboxRange lines0).inboxStart, (locateInboxRange lines0).inboxEnd, si + 1,
       findBoundary (locateInboxRange lines0).lines (subLevelOf sh)
         (locateInboxRange lines0).inboxEnd (si + 1)⟩ := by
  simp only [computeBlock]
  rw [hf]

theorem computeBlock_some_create {lines0 : List String} {sh : String}
    (hf : findInRange (locateInboxRange lines0).lines (fun l => pyStrip l == sh)
      (locateInboxRange lines0).inboxStart (locateInboxRange lines0).inboxEnd = none) :
    computeBlock lines0 (some sh) = createSub (locateInboxRange lines0) sh := by
  simp only [computeBlock]
  rw [hf]

theorem createSub_blank {r : InboxRange} {sh : String}
    (hc : (decide (r.inboxStart < r.lines.length) &&
      !(pyStrip (lineAt r.lines r.inboxStart) == "")) = true) :
    createSub r sh =
      ⟨pyInsert (r.inboxStart + 2) ""
         (pyInsert (r.inboxStart + 1) sh (pyInsert r.inboxStart "" r.lines)),
       r.inboxIdx, r.inboxStart, r.inboxEnd + 3, r.inboxStart + 2,
       findBoundary
         (pyInsert (r.inboxStart + 2) ""
           (pyInsert (r.inboxStart + 1) sh (pyInsert r.inboxStart "" r.lines)))
         (subLevelOf sh) (r.inboxEnd + 3) (r.inboxStart + 2)⟩ := by
  simp only [createSub]
  rw [hc]
  simp [pyInsert]

theorem createSub_noblank {r : InboxRange} {sh : String}
    (hc : (decide (r.inboxStart < r.lines.length) &&
      !(pyStrip (lineAt r.lines r.inboxStart) == "")) = false) :
    createSub r sh =
      ⟨pyInsert (r.inboxStart + 1) "" (pyInsert r.inboxStart sh r.lines),
       r.inboxIdx, r.inboxStart, r.inboxEnd + 2, r.inboxStart + 1,
       findBoundary (pyInsert (r.inboxStart + 1) "" (pyInsert r.inboxStart sh r.lines))
         (subLevelOf sh) (r.inboxEnd + 2) (r.inboxStart + 1)⟩ := by
  simp only [createSub]
  rw [hc]
  simp [pyInsert]

theorem computeBlock_sub_shape (lines0 : List String) (sh : String) :
    (computeBlock lines0 (some sh)).blockEnd =
      findBoundary (computeBlock lines0 (some sh)).lines (subLevelOf sh)
        (computeBlock lines0 (some sh)).inboxEnd (computeBlock lines0 (some sh)).blockStart ∧
    (computeBlock lines0 (some sh)).blockStart ≤ (computeBlock lines0 (some sh)).inboxEnd ∧
    (computeBlock lines0 (some sh)).inboxStart < (computeBlock lines0 (some sh)).blockStart ∧
    (computeBlock lines0 (some sh)).inboxEnd ≤ (computeBlock lines0 (some sh)).lines.length := by
  have hend := locateInboxRange_end_spec lines0
  cases hf : findInRange (locateInboxRange lines0).lines (fun l => pyStrip l == sh)
      (locateInboxRange lines0).inboxStart (locateInboxRange lines0).inboxEnd with
  | some si =>
    rw [computeBlock_some_found hf]
    dsimp only
    have hs := (findInRange_eq_some_iff (by omega)).mp hf
    exact ⟨rfl, by omega, by omega, by omega⟩
  | none =>
    rw [computeBlock_some_create hf]
    by_cases hc : (decide ((locateInboxRange lines0).inboxStart <
        (locateInboxRange lines0).lines.length) &&
      !(pyStrip (lineAt (locateInboxRange lines0).lines
          (locateInboxRange lines0).inboxStart) == "")) = true
    · rw [createSub_blank hc]
      dsimp only
      have hl : (pyInsert ((locateInboxRange lines0).inboxStart + 2) ""
          (pyInsert ((locateInboxRange lines0).inboxStart + 1) sh
            (pyInsert (locateInboxRange lines0).inboxStart ""
              (locateInboxRange lines0).lines))).length =
          (locateInboxRange lines0).lines.length + 3 := by
        rw [pyInsert_length, pyInsert_length, pyInsert_length]
      exact ⟨rfl, by omega, by omega, by simp only [hl]; omega⟩
    · have hc' := Bool.eq_false_iff.mpr hc
      rw [createSub_noblank hc']
      dsimp only
      have hl : (pyInsert ((locateInboxRange lines0).inboxStart + 1) ""
          (pyInsert (locateInboxRange lines0).inboxStart sh
            (locateInboxRange lines0).lines)).length =
          (locateInboxRange lines0).lines.length + 2 := by
        rw [pyInsert_length, pyInsert_length]
      exact ⟨rfl, by omega, by omega, by simp only [hl]; omega⟩

/-- C2: Section block boundaries obey the heading-level rule.  The
top-level `## Inbox` content range starts immediately after the heading
line and ends at the first subsequent line of heading level ≤ 2 (at end of
document when there is none: no line of the range is such a heading, and
when the range stops short of the document the stopping line is one); a
sub-section's range ends at the first subsequent line within the parent
range whose level is ≤ the sub-section's own level, or at the parent
range's end; deeper headings never terminate a block (they fail the
`levelLEb` bound inside the range). -/
theorem C2_section_boundaries (lines0 : List String) (sub : Option String) :
    ((locateInboxRange lines0).inboxStart = (locateInboxRange lines0).inboxIdx + 1 ∧
     (locateInboxRange lines0).inboxStart ≤ (locateInboxRange lines0).inboxEnd ∧
     (locateInboxRange lines0).inboxEnd ≤ (locateInboxRange lines0).lines.length ∧
     (∀ j, (locateInboxRange lines0).inboxStart ≤ j →
        j < (locateInboxRange lines0).inboxEnd →
        levelLEb (locateInboxRange lines0).lines j 2 = false) ∧
     ((locateInboxRange lines0).inboxEnd < (locateInboxRange lines0).lines.length →
        levelLEb (locateInboxRange lines0).lines (locateInboxRange lines0).inboxEnd 2 = true)) ∧
    (∀ sh, sub = some sh →
      (∀ j, (computeBlock lines0 sub).blockStart ≤ j →
         j < (computeBlock lines0 sub).blockEnd →
         levelLEb (computeBlock lines0 sub).lines j (subLevelOf sh) = false) ∧
      ((computeBlock lines0 sub).blockEnd < (computeBlock lines0 sub).inboxEnd →
         levelLEb (computeBlock lines0 sub).lines (computeBlock lines0 sub).blockEnd
           (subLevelOf sh) = true) ∧
      (computeBlock lines0 sub).blockEnd ≤ (computeBlock lines0 sub).inboxEnd) := by
  constructor
  · have hspec := locateInboxRange_spec lines0
    have hle := locateInboxRange_start_le lines0
    refine ⟨hspec.2.2.2.1, (locateInboxRange_end_spec lines0).1,
      (locateInboxRange_end_spec lines0).2, ?_, ?_⟩
    · intro j hj1 hj2
      rw [hspec.2.2.2.2] at hj2
      exact findBoundary_min hle j hj1 hj2
    · intro hlt
      rw [hspec.2.2.2.2] at hlt ⊢
      exact findBoundary_hit hle hlt
  · rintro sh rfl
    have hshape := computeBlock_sub_shape lines0 sh
    refine ⟨?_, ?_, ?_⟩
    · intro j hj1 hj2
      rw [hshape.1] at hj2
      exact findBoundary_min (by omega) j hj1 hj2
    · intro hlt
      rw [hshape.1] at hlt ⊢
      exact findBoundary_hit (by omega) hlt
    · rw [hshape.1]
      exact findBoundary_le (by omega)

/-- C2 witness: the boundary rules evaluated on a concrete document with a
level-3 sub-section followed by a level-2 heading. -/
theorem C2_section_boundaries_witness :
    levelLEb (computeBlock ["## Inbox", "x", "### Sub", "y", "## Next"]
        (some "### Sub")).lines 3 (subLevelOf "### Sub") = false ∧
    (computeBlock ["## Inbox", "x", "### Sub", "y", "## Next"]
        (some "### Sub")).blockEnd ≤
      (computeBlock ["## Inbox", "x", "### Sub", "y", "## Next"]
        (some "### Sub")).inboxEnd ∧
    levelLEb (locateInboxRange ["## Inbox", "x", "### Sub", "y", "## Next"]).lines
      (locateInboxRange ["## Inbox", "x", "### Sub", "y", "## Next"]).inboxEnd 2 = true :=
  ⟨((C2_section_boundaries ["## Inbox", "x", "### Sub", "y", "## Next"]
      (some "### Sub")).2 "### Sub" rfl).1 3 (by decide) (by decide),
   ((C2_section_boundaries ["## Inbox", "x", "### Sub", "y", "## Next"]
      (some "### Sub")).2 "### Sub" rfl).2.2,
   (C2_section_boundaries ["## Inbox", "x", "### Sub", "y", "## Next"]
      (some "### Sub")).1.2.2.2.2 (by decide)⟩

/-- C3: Range containment invariant: for every document and requested
sub-header (including none), the chosen block range is a subset of the
enclosing Inbox range, and both ranges satisfy start ≤ end ≤ document
length. -/
theorem C3_range_containment (lines0 : List String) (sub : Option String) :
    (computeBlock lines0 sub).inboxStart ≤ (computeBlock lines0 sub).blockStart ∧
    (computeBlock lines0 sub).blockStart ≤ (computeBlock lines0 sub).blockEnd ∧
    (computeBlock lines0 sub).blockEnd ≤ (computeBlock lines0 sub).inboxEnd ∧
    (computeBlock lines0 sub).inboxStart ≤ (computeBlock lines0 sub).inboxEnd ∧
    (computeBlock lines0 sub).inboxEnd ≤ (computeBlock lines0 sub).lines.length := by
  cases sub with
  | none =>
    rw [computeBlock_none_eq]
    dsimp only
    have hend := locateInboxRange_end_spec lines0
    exact ⟨by omega, by omega, by omega, by omega, by omega⟩
  | some sh =>
    have hshape := computeBlock_sub_shape lines0 sh
    have h1 : (computeBlock lines0 (some sh)).blockStart ≤
        (computeBlock lines0 (some sh)).blockEnd := by
      rw [hshape.1]; exact le_findBoundary (by omega)
    have h2 : (computeBlock lines0 (some sh)).blockEnd ≤
        (computeBlock lines0 (some sh)).inboxEnd := by
      rw [hshape.1]; exact findBoundary_le (by omega)
    exact ⟨by omega, h1, h2, by omega, by omega⟩

/-! ## Facts about lines produced by the mutator -/

theorem pyRstripData_head {c : Char} (l : List Char) (hc : c.isWhitespace = false) :
    ∃ m, pyRstripData (c :: l) = c :: m := by
  unfold pyRstripData
  rw [List.reverse_cons, List.dropWhile_append]
  by_cases he : (List.dropWhile Char.isWhitespace l.reverse).isEmpty = true
  · rw [if_pos he]
    refine ⟨[], ?_⟩
    show (List.dropWhile Char.isWhitespace [c]).reverse = [c]
    rw [List.dropWhile_cons]
    rw [hc]
    simp
  · rw [if_neg he]
    exact ⟨(List.dropWhile Char.isWhitespace l.reverse).reverse, by simp⟩

theorem pyStripData_head {c : Char} (l : List Char) (hc : c.isWhitespace = false) :
    ∃ m, pyStripData (c :: l) = c :: m := by
  unfold pyStripData pyLstripData
  rw [List.dropWhile_cons, hc]
  simp only [Bool.false_eq_true, if_false]
  exact pyRstripData_head l hc

theorem bulletFor_data (t u : String) :
    (bulletFor t u).data = '-' :: ' ' :: '[' :: (t.data ++ ']' :: '(' :: (u.data ++ [')'])) := by
  simp [bulletFor, String.data_append]

theorem _header_level_none_of_head {s : String} {c : Char} {l : List Char}
    (hs : s.data = c :: l) (hc : c.isWhitespace = false) (hch : c ≠ '#') :
    _header_level s = none := by
  unfold _header_level pyLstripData
  rw [hs, List.dropWhile_cons, hc]
  simp only [Bool.false_eq_true, if_false]
  rw [if_neg hch]

theorem _header_level_bulletFor (t u : String) : _header_level (bulletFor t u) = none :=
  _header_level_none_of_head (bulletFor_data t u) (by decide) (by decide)

theorem _header_level_some_shape {sh : String} {l : Nat}
    (h : _header_level sh = some l) :
    ∃ rest, pyLstripData sh.data = '#' :: rest := by
  unfold _header_level at h
  cases hd : pyLstripData sh.data with
  | nil => rw [hd] at h; exact Option.noConfusion h
  | cons c rest =>
    rw [hd] at h
    dsimp only at h
    by_cases hc : c = '#'
    · exact ⟨rest, by rw [hc]⟩
    · rw [if_neg hc] at h; exact Option.noConfusion h

theorem strip_stable_header_shape {sh : String} {l : Nat}
    (hsh : _header_level sh = some l) (hstrip : pyStrip sh = sh) :
    ∃ rest, sh.data = '#' :: rest := by
  obtain ⟨r1, hr1⟩ := _header_level_some_shape hsh
  have hdata : pyStripData sh.data = sh.data := congrArg String.data hstrip
  obtain ⟨m, hm⟩ := pyRstripData_head r1 (by decide : ('#' : Char).isWhitespace = false)
  refine ⟨m, ?_⟩
  rw [← hdata]
  unfold pyStripData
  rw [hr1, hm]

theorem string_ne_of_head {a b : String} {c d : Char} {la lb : List Char}
    (ha : a.data = c :: la) (hb : b.data = d :: lb) (h : c ≠ d) : a ≠ b := by
  intro he
  rw [he, hb] at ha
  injection ha with h1
  exact h h1.symm

theorem pyStrip_bulletFor_ne_sub {t u sh : String} {l : Nat}
    (hsh : _header_level sh = some l) (hstrip : pyStrip sh = sh) :
    (pyStrip (bulletFor t u) == sh) = false := by
  obtain ⟨rest, hr⟩ := strip_stable_header_shape hsh hstrip
  obtain ⟨m, hm⟩ := pyStripData_head
    (' ' :: '[' :: (t.data ++ ']' :: '(' :: (u.data ++ [')'])))
    (by decide : ('-' : Char).isWhitespace = false)
  have hbd : (pyStrip (bulletFor t u)).data = '-' :: m := by
    show pyStripData (bulletFor t u).data = '-' :: m
    rw [bulletFor_data]
    exact hm
  exact beq_eq_false_iff_ne.mpr (string_ne_of_head hbd hr (by decide))

theorem blank_ne_sub {sh : String} {l : Nat}
    (hsh : _header_level sh = some l) (hstrip : pyStrip sh = sh) :
    (pyStrip "" == sh) = false := by
  obtain ⟨rest, hr⟩ := strip_stable_header_shape hsh hstrip
  have : ("" : String) ≠ sh := by
    intro he
    rw [← he] at hr
    exact List.noConfusion hr
  exact beq_eq_false_iff_ne.mpr this

theorem splitAtChar_append (c : Char) (l r : List Char) (hc : c ∉ l) :
    splitAtChar c (l ++ c :: r) = some (l, r) := by
  induction l with
  | nil => simp [splitAtChar]
  | cons x xs ih =>
    have hx : x ≠ c := fun h => hc (h ▸ List.mem_cons_self x xs)
    rw [List.cons_append]
    unfold splitAtChar
    rw [if_neg hx, ih (fun h => hc (List.mem_cons_of_mem _ h))]

theorem searchLink_cons_ne {c : Char} (l : List Char) (hc : c ≠ '[') :
    searchLink (c :: l) = searchLink l := by
  conv_lhs => unfold searchLink
  rw [if_neg hc]

theorem searchLink_found {t u : List Char} (ht : ']' ∉ t) (hu1 : ')' ∉ u)
    (hu2 : u ≠ []) :
    searchLink ('[' :: (t ++ ']' :: '(' :: (u ++ [')']))) = some u := by
  unfold searchLink
  rw [if_pos rfl, splitAtChar_append ']' t _ ht]
  dsimp only
  rw [if_pos rfl, splitAtChar_append ')' u _ hu1]
  dsimp only
  rw [if_neg hu2]

theorem searchLink_bulletFor (t u : String) (ht : ']' ∉ t.data)
    (hu1 : ')' ∉ u.data) (hu2 : u.data ≠ []) :
    searchLink (bulletFor t u).data = some u.data := by
  rw [bulletFor_data,
    searchLink_cons_ne _ (by decide : ('-' : Char) ≠ '['),
    searchLink_cons_ne _ (by decide : (' ' : Char) ≠ '[')]
  exact searchLink_found ht hu1 hu2

theorem lineTarget_bulletFor {t u : String} (base : List String) (ht : ']' ∉ t.data)
    (hu1 : ')' ∉ u.data) (hu2 : u.data ≠ []) :
    lineTarget (bulletFor t u) base =
      some (_normalize_md_link_url (pyStrip u) base) := by
  unfold lineTarget
  rw [searchLink_bulletFor t u ht hu1 hu2]
  rfl

theorem levelLEb_false_of_none {lines : List String} {j thr : Nat}
    (h : _header_level (lineAt lines j) = none) : levelLEb lines j thr = false := by
  unfold levelLEb
  rw [h]

/-! ## De-duplication: the branch structure of the mutator -/

theorem mem_blockLines {b : BlockInfo} {pb : Nat} (h1 : b.blockStart ≤ pb)
    (h2 : pb < b.blockEnd) (h3 : pb < b.lines.length) :
    lineAt b.lines pb ∈ blockLines b := by
  unfold blockLines
  have hg : ((b.lines.drop b.blockStart).take (b.blockEnd - b.blockStart))[pb -
      b.blockStart]? = some (lineAt b.lines pb) := by
    rw [List.getElem?_take, if_pos (by omega), List.getElem?_drop]
    have e : b.blockStart + (pb - b.blockStart) = pb := by omega
    rw [e, List.getElem?_eq_getElem h3]
    unfold lineAt
    rw [List.getD_eq_getElem?_getD, List.getElem?_eq_getElem h3]
    rfl
  exact List.getElem?_mem hg

theorem add_link_eq_none_of {lines0 : List String} {t u : String}
    {sub : Option String} {base : List String}
    (h : ∃ ln ∈ blockOf lines0 sub, lineTarget ln base =
      some (_normalize_md_link_url u base)) :
    add_link_under_inbox lines0 t u sub base = none := by
  simp only [add_link_under_inbox]
  rw [if_pos ?hc]
  case hc =>
    apply List.elem_eq_true_of_mem
    rw [List.mem_filterMap]
    obtain ⟨ln, h1, h2⟩ := h
    exact ⟨ln, h1, h2⟩

theorem add_link_eq_some_of {lines0 : List String} {t u : String}
    {sub : Option String} {base : List String}
    (h : ∀ ln ∈ blockOf lines0 sub, lineTarget ln base ≠
      some (_normalize_md_link_url u base)) :
    add_link_under_inbox lines0 t u sub base =
      some (insertBullet (computeBlock lines0 sub) (bulletFor t u)) := by
  simp only [add_link_under_inbox]
  rw [if_neg ?hc]
  case hc =>
    intro hc
    have hm := List.elem_iff.mp hc
    rw [List.mem_filterMap] at hm
    obtain ⟨ln, h1, h2⟩ := hm
    exact h ln h1 h2

theorem add_link_some_inv {lines0 : List String} {t u : String}
    {sub : Option String} {base : List String} {R : List String}
    (h : add_link_under_inbox lines0 t u sub base = some R) :
    R = insertBullet (computeBlock lines0 sub) (bulletFor t u) ∧
    ∀ ln ∈ blockOf lines0 sub, lineTarget ln base ≠
      some (_normalize_md_link_url u base) := by
  by_cases hdup : ∃ ln ∈ blockOf lines0 sub, lineTarget ln base =
      some (_normalize_md_link_url u base)
  · rw [add_link_eq_none_of hdup] at h
    exact Option.noConfusion h
  · push_neg at hdup
    rw [add_link_eq_some_of hdup] at h
    injection h with h
    exact ⟨h.symm, hdup⟩

/-- After the mutator has inserted its bullet right after the `## Inbox`
heading (at `idx`), running it again with a target that normalizes to the
bullet's extracted target is a no-op: key auxiliary step behind
idempotence, stated over the explicit post-insertion document
`L.take (idx+1) ++ mid ++ L.drop (idx+1)` whose inserted segment `mid`
ends with the bullet line. -/
theorem dedup_after_insert_nosub {L : List String} {idx : Nat} {mid : List String}
    {t2 u2 : String} {base : List String}
    (hidx : idx < L.length)
    (hmatch : (pyStrip (lineAt L idx) == INBOX_HEADER) = true)
    (hmin : ∀ j, j < idx → (pyStrip (lineAt L j) == INBOX_HEADER) = false)
    (hmid : 1 ≤ mid.length)
    (hmidh : ∀ j, j < mid.length → _header_level (lineAt mid j) = none)
    (hlast : lineTarget (lineAt mid (mid.length - 1)) base =
      some (_normalize_md_link_url u2 base)) :
    add_link_under_inbox (L.take (idx + 1) ++ mid ++ L.drop (idx + 1)) t2 u2
      none base = none := by
  have hq : idx + 1 ≤ L.length := hidx
  have hlen : (L.take (idx + 1) ++ mid ++ L.drop (idx + 1)).length =
      L.length + mid.length := length_seg hq
  -- the Inbox heading is still found first at `idx`
  have hfind : findInRange (L.take (idx + 1) ++ mid ++ L.drop (idx + 1))
      (fun l => pyStrip l == INBOX_HEADER) 0
      (L.take (idx + 1) ++ mid ++ L.drop (idx + 1)).length = some idx := by
    rw [findInRange_eq_some_iff (by omega)]
    refine ⟨by omega, by omega, ?_, ?_⟩
    · rw [lineAt_seg_lt hq (by omega)]
      exact hmatch
    · intro k _ hk
      rw [lineAt_seg_lt hq (by omega)]
      exact hmin k hk
  have hloc := locateInboxRange_found hfind
  have hblock := computeBlock_none_eq (L.take (idx + 1) ++ mid ++ L.drop (idx + 1))
  rw [hloc] at hblock
  -- position of the bullet line inside the new document
  have hpb : lineAt (L.take (idx + 1) ++ mid ++ L.drop (idx + 1))
      (idx + mid.length) = lineAt mid (mid.length - 1) := by
    rw [lineAt_seg_mid hq (by omega) (by omega)]
    congr 1
    omega
  -- the bullet position is inside the recomputed Inbox block
  have hgt : idx + mid.length <
      findBoundary (L.take (idx + 1) ++ mid ++ L.drop (idx + 1)) 2
        (L.take (idx + 1) ++ mid ++ L.drop (idx + 1)).length (idx + 1) := by
    apply findBoundary_gt (by omega) (by omega)
    intro j hj1 hj2
    apply levelLEb_false_of_none
    rw [lineAt_seg_mid hq (by omega) (by omega)]
    exact hmidh (j - (idx + 1)) (by omega)
  apply add_link_eq_none_of
  refine ⟨lineAt (L.take (idx + 1) ++ mid ++ L.drop (idx + 1)) (idx + mid.length),
    ?_, ?_⟩
  · show _ ∈ blockOf _ none
    unfold blockOf
    rw [hblock]
    exact mem_blockLines (by dsimp only; omega) (by dsimp only; exact hgt)
      (by dsimp only; omega)
  · rw [hpb]
    exact hlast

theorem levelLEb_false_of_big {lines : List String} {j thr lvl : Nat}
    (h : _header_level (lineAt lines j) = some lvl) (hgt : thr < lvl) :
    levelLEb lines j thr = false := by
  unfold levelLEb
  rw [h]
  exact decide_eq_false (by omega)

/-- After the mutator has placed its bullet at position `pb` inside a
sub-section whose heading sits at `sp` under the `## Inbox` heading at
`idx`, re-running it with a target that normalizes to the bullet's
extracted target is a no-op.  All layout conditions of the post-insertion
document are taken pointwise. -/
theorem dedup_on_prepared_sub {R : List String} (idx sp pb : Nat)
    {sh t2 u2 : String} {lvl : Nat} {base : List String}
    (hshl : _header_level sh = some lvl) (hl0 : lvl ≠ 0)
    (hidx : idx < R.length)
    (hmatch : (pyStrip (lineAt R idx) == INBOX_HEADER) = true)
    (hmin : ∀ j, j < idx → (pyStrip (lineAt R j) == INBOX_HEADER) = false)
    (hsp1 : idx + 1 ≤ sp) (hsp2 : sp < pb) (hpb : pb < R.length)
    (hspm : (pyStrip (lineAt R sp) == sh) = true)
    (hspmin : ∀ k, idx + 1 ≤ k → k < sp → (pyStrip (lineAt R k) == sh) = false)
    (h2 : ∀ j, idx + 1 ≤ j → j ≤ pb → levelLEb R j 2 = false)
    (hsub : ∀ j, sp + 1 ≤ j → j ≤ pb → levelLEb R j lvl = false)
    (htgt : lineTarget (lineAt R pb) base = some (_normalize_md_link_url u2 base)) :
    add_link_under_inbox R t2 u2 (some sh) base = none := by
  have hlvl : subLevelOf sh = lvl := by
    unfold subLevelOf
    rw [hshl]
    dsimp only
    rw [if_neg hl0]
  have hfind : findInRange R (fun l => pyStrip l == INBOX_HEADER) 0 R.length =
      some idx := by
    rw [findInRange_eq_some_iff (by omega)]
    exact ⟨by omega, hidx, hmatch, fun k _ hk => hmin k hk⟩
  have hloc := locateInboxRange_found hfind
  have hgt2 : pb < findBoundary R 2 R.length (idx + 1) :=
    findBoundary_gt (by omega) hpb (fun j hj1 hj2 => h2 j hj1 hj2)
  have hfb2le : findBoundary R 2 R.length (idx + 1) ≤ R.length :=
    findBoundary_le (by omega)
  have hfsub : findInRange R (fun l => pyStrip l == sh) (idx + 1)
      (findBoundary R 2 R.length (idx + 1)) = some sp := by
    rw [findInRange_eq_some_iff (by omega)]
    exact ⟨hsp1, by omega, hspm, fun k hk1 hk2 => hspmin k hk1 hk2⟩
  have hfsub' : findInRange (locateInboxRange R).lines (fun l => pyStrip l == sh)
      (locateInboxRange R).inboxStart (locateInboxRange R).inboxEnd = some sp := by
    rw [hloc]
    exact hfsub
  have hblock := computeBlock_some_found hfsub'
  rw [hloc] at hblock
  dsimp only at hblock
  have hgts : pb < findBoundary R (subLevelOf sh)
      (findBoundary R 2 R.length (idx + 1)) (sp + 1) := by
    rw [hlvl]
    exact findBoundary_gt (by omega) hgt2 (fun j hj1 hj2 => hsub j hj1 hj2)
  apply add_link_eq_none_of
  refine ⟨lineAt R pb, ?_, htgt⟩
  show _ ∈ blockOf R (some sh)
  unfold blockOf
  rw [hblock]
  exact mem_blockLines (by dsimp only; omega) (by dsimp only; exact hgts)
    (by dsimp only; omega)

/-- Second call with an equivalent target is a no-op after a successful
insertion under the top-level section (no sub-header). -/
theorem second_call_none_nosub {lines0 : List String} {t u t2 u2 : String}
    {base : List String} {R : List String}
    (ht : ']' ∉ t.data) (hu1 : ')' ∉ u.data) (hu2 : u.data ≠ [])
    (hnorm : _normalize_md_link_url (pyStrip u) base =
      _normalize_md_link_url u2 base)
    (hfirst : add_link_under_inbox lines0 t u none base = some R) :
    add_link_under_inbox R t2 u2 none base = none := by
  obtain ⟨hR, -⟩ := add_link_some_inv hfirst
  have hspec := locateInboxRange_spec lines0
  have hsle := locateInboxRange_start_le lines0
  rw [computeBlock_none_eq lines0] at hR
  unfold insertBullet at hR
  dsimp only at hR
  have hlast0 := lineTarget_bulletFor base ht hu1 hu2
  rw [hnorm] at hlast0
  by_cases hc : (decide ((locateInboxRange lines0).inboxStart <
      (locateInboxRange lines0).lines.length) &&
      !(pyStrip (lineAt (locateInboxRange lines0).lines
        (locateInboxRange lines0).inboxStart) == "")) = true
  · rw [if_pos hc] at hR
    have e1 : pyInsert (locateInboxRange lines0).inboxStart ""
        (locateInboxRange lines0).lines =
        (locateInboxRange lines0).lines.take (locateInboxRange lines0).inboxStart ++
          [""] ++ (locateInboxRange lines0).lines.drop
            (locateInboxRange lines0).inboxStart := by
      simp [pyInsert]
    have e2 := @pyInsert_seg (locateInboxRange lines0).lines [""]
      (locateInboxRange lines0).inboxStart 1 (bulletFor t u) hsle (by simp)
    simp only [List.take_succ_cons, List.take_zero, List.drop_succ_cons,
      List.drop_zero, List.nil_append, List.singleton_append] at e2
    rw [e1, e2] at hR
    rw [hspec.2.2.2.1] at hR
    rw [hR]
    apply dedup_after_insert_nosub hspec.1 hspec.2.1 hspec.2.2.1 (by simp)
    · intro j hj
      simp only [List.length_cons, List.length_nil] at hj
      cases j with
      | zero => rfl
      | succ j =>
        cases j with
        | zero => exact _header_level_bulletFor t u
        | succ j => omega
    · exact hlast0
  · rw [if_neg hc] at hR
    have e1 : pyInsert (locateInboxRange lines0).inboxStart (bulletFor t u)
        (locateInboxRange lines0).lines =
        (locateInboxRange lines0).lines.take (locateInboxRange lines0).inboxStart ++
          [bulletFor t u] ++ (locateInboxRange lines0).lines.drop
            (locateInboxRange lines0).inboxStart := by
      simp [pyInsert]
    rw [e1] at hR
    rw [hspec.2.2.2.1] at hR
    rw [hR]
    apply dedup_after_insert_nosub hspec.1 hspec.2.1 hspec.2.2.1 (by simp)
    · intro j hj
      simp only [List.length_cons, List.length_nil] at hj
      cases j with
      | zero => exact _header_level_bulletFor t u
      | succ j => omega
    · exact hlast0

/-- After a bullet insertion into an existing sub-section (sub-header found
at `si`), re-running the mutator with an equivalent target is a no-op. -/
theorem dedup_after_insert_sub_found {L mid : List String} {idx si : Nat}
    {t2 u2 sh : String} {lvl : Nat} {base : List String}
    (hshl : _header_level sh = some lvl) (hl3 : 3 ≤ lvl)
    (hidx : idx < L.length)
    (hmatch : (pyStrip (lineAt L idx) == INBOX_HEADER) = true)
    (hmin : ∀ j, j < idx → (pyStrip (lineAt L j) == INBOX_HEADER) = false)
    (hq : si + 1 ≤ L.length) (hsi : idx + 1 ≤ si)
    (hspm : (pyStrip (lineAt L si) == sh) = true)
    (hspmin : ∀ k, idx + 1 ≤ k → k < si → (pyStrip (lineAt L k) == sh) = false)
    (hnohdr : ∀ j, idx + 1 ≤ j → j ≤ si → levelLEb L j 2 = false)
    (hmid : 1 ≤ mid.length)
    (hmidh : ∀ j, j < mid.length → _header_level (lineAt mid j) = none)
    (hlast : lineTarget (lineAt mid (mid.length - 1)) base =
      some (_normalize_md_link_url u2 base)) :
    add_link_under_inbox (L.take (si + 1) ++ mid ++ L.drop (si + 1)) t2 u2
      (some sh) base = none := by
  have hlen : (L.take (si + 1) ++ mid ++ L.drop (si + 1)).length =
      L.length + mid.length := length_seg hq
  apply dedup_on_prepared_sub idx si (si + mid.length) hshl (by omega)
  · omega
  · rw [lineAt_seg_lt hq (by omega)]; exact hmatch
  · intro j hj
    rw [lineAt_seg_lt hq (by omega)]
    exact hmin j hj
  · exact hsi
  · omega
  · omega
  · rw [lineAt_seg_lt hq (by omega)]; exact hspm
  · intro k hk1 hk2
    rw [lineAt_seg_lt hq (by omega)]
    exact hspmin k hk1 hk2
  · intro j hj1 hj2
    by_cases hjs : j ≤ si
    · have : lineAt (L.take (si + 1) ++ mid ++ L.drop (si + 1)) j = lineAt L j :=
        lineAt_seg_lt hq (by omega)
      unfold levelLEb
      rw [this]
      have := hnohdr j hj1 hjs
      unfold levelLEb at this
      exact this
    · apply levelLEb_false_of_none
      rw [lineAt_seg_mid hq (by omega) (by omega)]
      exact hmidh (j - (si + 1)) (by omega)
  · intro j hj1 hj2
    apply levelLEb_false_of_none
    rw [lineAt_seg_mid hq (by omega) (by omega)]
    exact hmidh (j - (si + 1)) (by omega)
  · rw [lineAt_seg_mid hq (by omega) (by omega)]
    have e : si + mid.length - (si + 1) = mid.length - 1 := by omega
    rw [e]
    exact hlast

/-- After the mutator has created the sub-section (heading at offset `spo`
of the inserted segment, bullet right after it), re-running it with an
equivalent target is a no-op. -/
theorem dedup_after_create_sub {L mid : List String} {idx : Nat} (spo : Nat)
    {t2 u2 sh : String} {lvl : Nat} {base : List String}
    (hshl : _header_level sh = some lvl) (hl3 : 3 ≤ lvl) (hstrip : pyStrip sh = sh)
    (hidx : idx < L.length)
    (hmatch : (pyStrip (lineAt L idx) == INBOX_HEADER) = true)
    (hmin : ∀ j, j < idx → (pyStrip (lineAt L j) == INBOX_HEADER) = false)
    (hspo : spo + 1 < mid.length)
    (hsheq : lineAt mid spo = sh)
    (hblank : ∀ k, k < spo → lineAt mid k = "")
    (hhdr : ∀ j, j ≤ spo + 1 → j ≠ spo → _header_level (lineAt mid j) = none)
    (hlast : lineTarget (lineAt mid (spo + 1)) base =
      some (_normalize_md_link_url u2 base)) :
    add_link_under_inbox (L.take (idx + 1) ++ mid ++ L.drop (idx + 1)) t2 u2
      (some sh) base = none := by
  have hq : idx + 1 ≤ L.length := hidx
  have hlen : (L.take (idx + 1) ++ mid ++ L.drop (idx + 1)).length =
      L.length + mid.length := length_seg hq
  apply dedup_on_prepared_sub idx (idx + 1 + spo) (idx + 1 + spo + 1) hshl (by omega)
  · omega
  · rw [lineAt_seg_lt hq (by omega)]; exact hmatch
  · intro j hj
    rw [lineAt_seg_lt hq (by omega)]
    exact hmin j hj
  · omega
  · omega
  · omega
  · rw [lineAt_seg_mid hq (by omega) (by omega)]
    have e : idx + 1 + spo - (idx + 1) = spo := by omega
    rw [e, hsheq, hstrip]
    exact beq_self_eq_true sh
  · intro k hk1 hk2
    rw [lineAt_seg_mid hq (by omega) (by omega)]
    rw [hblank (k - (idx + 1)) (by omega)]
    exact blank_ne_sub hshl hstrip
  · intro j hj1 hj2
    by_cases hjs : j - (idx + 1) = spo
    · have hl : lineAt (L.take (idx + 1) ++ mid ++ L.drop (idx + 1)) j = sh := by
        rw [lineAt_seg_mid hq (by omega) (by omega), hjs, hsheq]
      exact @levelLEb_false_of_big
        (L.take (idx + 1) ++ mid ++ L.drop (idx + 1)) j 2 lvl
        (by rw [hl]; exact hshl) (by omega)
    · apply levelLEb_false_of_none
      rw [lineAt_seg_mid hq (by omega) (by omega)]
      exact hhdr (j - (idx + 1)) (by omega) hjs
  · intro j hj1 hj2
    apply levelLEb_false_of_none
    rw [lineAt_seg_mid hq (by omega) (by omega)]
    exact hhdr (j - (idx + 1)) (by omega) (by omega)
  · rw [lineAt_seg_mid hq (by omega) (by omega)]
    have e : idx + 1 + spo + 1 - (idx + 1) = spo + 1 := by omega
    rw [e]
    exact hlast

/-- Second call with an equivalent target is a no-op after a successful
insertion under a sub-header of level ≥ 3 (found or created). -/
theorem second_call_none_sub {lines0 : List String} {t u t2 u2 sh : String}
    {lvl : Nat} {base : List String} {R : List String}
    (hshl : _header_level sh = some lvl) (hl3 : 3 ≤ lvl) (hstrip : pyStrip sh = sh)
    (ht : ']' ∉ t.data) (hu1 : ')' ∉ u.data) (hu2 : u.data ≠ [])
    (hnorm : _normalize_md_link_url (pyStrip u) base =
      _normalize_md_link_url u2 base)
    (hfirst : add_link_under_inbox lines0 t u (some sh) base = some R) :
    add_link_under_inbox R t2 u2 (some sh) base = none := by
  obtain ⟨hR, -⟩ := add_link_some_inv hfirst
  have hspec := locateInboxRange_spec lines0
  have hidxlt := hspec.1
  have hmatch := hspec.2.1
  have hmin := hspec.2.2.1
  have hisidx := hspec.2.2.2.1
  have hendB := hspec.2.2.2.2
  have hsle := locateInboxRange_start_le lines0
  obtain ⟨he1, he2⟩ := locateInboxRange_end_spec lines0
  have hlast0 := lineTarget_bulletFor base ht hu1 hu2
  rw [hnorm] at hlast0
  cases hf : findInRange (locateInboxRange lines0).lines (fun l => pyStrip l == sh)
      (locateInboxRange lines0).inboxStart (locateInboxRange lines0).inboxEnd with
  | some si =>
    rw [computeBlock_some_found hf] at hR
    unfold insertBullet at hR
    dsimp only at hR
    obtain ⟨hfs1, hfs2, hfs3, hfs4⟩ := (findInRange_eq_some_iff (by omega)).mp hf
    have hq : si + 1 ≤ (locateInboxRange lines0).lines.length := by omega
    have hnohdr : ∀ j, (locateInboxRange lines0).inboxIdx + 1 ≤ j → j ≤ si →
        levelLEb (locateInboxRange lines0).lines j 2 = false := by
      intro j hj1 hj2
      have hje : j < (locateInboxRange lines0).inboxEnd := by omega
      rw [hendB] at hje
      exact @findBoundary_min (locateInboxRange lines0).lines 2
        (locateInboxRange lines0).lines.length (locateInboxRange lines0).inboxStart
        hsle j (by omega) hje
    have hspmin : ∀ k, (locateInboxRange lines0).inboxIdx + 1 ≤ k → k < si →
        (pyStrip (lineAt (locateInboxRange lines0).lines k) == sh) = false := by
      intro k hk1 hk2
      exact hfs4 k (by omega) hk2
    by_cases hc : (decide (si + 1 < (locateInboxRange lines0).lines.length) &&
        !(pyStrip (lineAt (locateInboxRange lines0).lines (si + 1)) == "")) = true
    · rw [if_pos hc] at hR
      have e1 : pyInsert (si + 1) "" (locateInboxRange lines0).lines =
          (locateInboxRange lines0).lines.take (si + 1) ++ [""] ++
            (locateInboxRange lines0).lines.drop (si + 1) := by
        simp [pyInsert]
      have e2 := @pyInsert_seg (locateInboxRange lines0).lines [""] (si + 1) 1
        (bulletFor t u) hq (by simp)
      simp only [List.take_succ_cons, List.take_zero, List.drop_succ_cons,
        List.drop_zero, List.nil_append, List.singleton_append,
        List.cons_append] at e2
      rw [e1, e2] at hR
      rw [hR]
      apply dedup_after_insert_sub_found hshl hl3 hidxlt hmatch hmin hq
        (by omega) hfs3 hspmin hnohdr (by simp)
      · intro j hj
        simp only [List.length_cons, List.length_nil] at hj
        cases j with
        | zero => rfl
        | succ j =>
          cases j with
          | zero => exact _header_level_bulletFor t u
          | succ j => omega
      · exact hlast0
    · rw [if_neg hc] at hR
      have e1 : pyInsert (si + 1) (bulletFor t u) (locateInboxRange lines0).lines =
          (locateInboxRange lines0).lines.take (si + 1) ++ [bulletFor t u] ++
            (locateInboxRange lines0).lines.drop (si + 1) := by
        simp [pyInsert]
      rw [e1] at hR
      rw [hR]
      apply dedup_after_insert_sub_found hshl hl3 hidxlt hmatch hmin hq
        (by omega) hfs3 hspmin hnohdr (by simp)
      · intro j hj
        simp only [List.length_cons, List.length_nil] at hj
        cases j with
        | zero => exact _header_level_bulletFor t u
        | succ j => omega
      · exact hlast0
  | none =>
    rw [computeBlock_some_create hf] at hR
    by_cases hc : (decide ((locateInboxRange lines0).inboxStart <
        (locateInboxRange lines0).lines.length) &&
        !(pyStrip (lineAt (locateInboxRange lines0).lines
          (locateInboxRange lines0).inboxStart) == "")) = true
    · rw [createSub_blank hc] at hR
      have f1 : pyInsert (locateInboxRange lines0).inboxStart ""
          (locateInboxRange lines0).lines =
          (locateInboxRange lines0).lines.take (locateInboxRange lines0).inboxStart ++
            [""] ++ (locateInboxRange lines0).lines.drop
              (locateInboxRange lines0).inboxStart := by
        simp [pyInsert]
      have f2 := @pyInsert_seg (locateInboxRange lines0).lines [""]
        (locateInboxRange lines0).inboxStart 1 sh hsle (by simp)
      simp only [List.take_succ_cons, List.take_zero, List.drop_succ_cons,
        List.drop_zero, List.nil_append, List.singleton_append,
        List.cons_append] at f2
      have f3 := @pyInsert_seg (locateInboxRange lines0).lines ["", sh]
        (locateInboxRange lines0).inboxStart 2 "" hsle (by simp)
      simp only [List.take_succ_cons, List.take_zero, List.drop_succ_cons,
        List.drop_zero, List.nil_append, List.singleton_append,
        List.cons_append] at f3
      rw [f1, f2, f3] at hR
      unfold insertBullet at hR
      dsimp only at hR
      have hline : lineAt ((locateInboxRange lines0).lines.take
          (locateInboxRange lines0).inboxStart ++ ["", sh, ""] ++
          (locateInboxRange lines0).lines.drop (locateInboxRange lines0).inboxStart)
          ((locateInboxRange lines0).inboxStart + 2) = "" := by
        rw [lineAt_seg_mid hsle (by omega)
          (by simp only [List.length_cons, List.length_nil]; omega)]
        have e : (locateInboxRange lines0).inboxStart + 2 -
            (locateInboxRange lines0).inboxStart = 2 := by omega
        rw [e]
        rfl
      rw [if_neg (by
        rw [hline]
        have hx : (pyStrip "" == "") = true := by decide
        simp [hx])] at hR
      have f4 := @pyInsert_seg (locateInboxRange lines0).lines ["", sh, ""]
        (locateInboxRange lines0).inboxStart 2 (bulletFor t u) hsle (by simp)
      simp only [List.take_succ_cons, List.take_zero, List.drop_succ_cons,
        List.drop_zero, List.nil_append, List.singleton_append,
        List.cons_append] at f4
      rw [f4] at hR
      rw [hisidx] at hR
      rw [hR]
      apply dedup_after_create_sub 1 hshl hl3 hstrip hidxlt hmatch hmin
        (by simp) (show lineAt ["", sh, bulletFor t u, ""] 1 = sh from rfl)
      · intro k hk
        cases k with
        | zero => rfl
        | succ k => omega
      · intro j hj1 hj2
        cases j with
        | zero => rfl
        | succ j =>
          cases j with
          | zero => exact absurd rfl hj2
          | succ j =>
            cases j with
            | zero => exact _header_level_bulletFor t u
            | succ j => omega
      · exact hlast0
    · have hc' := Bool.eq_false_iff.mpr hc
      rw [createSub_noblank hc'] at hR
      have f1 : pyInsert (locateInboxRange lines0).inboxStart sh
          (locateInboxRange lines0).lines =
          (locateInboxRange lines0).lines.take (locateInboxRange lines0).inboxStart ++
            [sh] ++ (locateInboxRange lines0).lines.drop
              (locateInboxRange lines0).inboxStart := by
        simp [pyInsert]
      have f2 := @pyInsert_seg (locateInboxRange lines0).lines [sh]
        (locateInboxRange lines0).inboxStart 1 "" hsle (by simp)
      simp only [List.take_succ_cons, List.take_zero, List.drop_succ_cons,
        List.drop_zero, List.nil_append, List.singleton_append,
        List.cons_append] at f2
      rw [f1, f2] at hR
      unfold insertBullet at hR
      dsimp only at hR
      have hline : lineAt ((locateInboxRange lines0).lines.take
          (locateInboxRange lines0).inboxStart ++ [sh, ""] ++
          (locateInboxRange lines0).lines.drop (locateInboxRange lines0).inboxStart)
          ((locateInboxRange lines0).inboxStart + 1) = "" := by
        rw [lineAt_seg_mid hsle (by omega)
          (by simp only [List.length_cons, List.length_nil]; omega)]
        have e : (locateInboxRange lines0).inboxStart + 1 -
            (locateInboxRange lines0).inboxStart = 1 := by omega
        rw [e]
        rfl
      rw [if_neg (by
        rw [hline]
        have hx : (pyStrip "" == "") = true := by decide
        simp [hx])] at hR
      have f3 := @pyInsert_seg (locateInboxRange lines0).lines [sh, ""]
        (locateInboxRange lines0).inboxStart 1 (bulletFor t u) hsle (by simp)
      simp only [List.take_succ_cons, List.take_zero, List.drop_succ_cons,
        List.drop_zero, List.nil_append, List.singleton_append,
        List.cons_append] at f3
      rw [f3] at hR
      rw [hisidx] at hR
      rw [hR]
      apply dedup_after_create_sub 0 hshl hl3 hstrip hidxlt hmatch hmin
        (by simp) (show lineAt [sh, bulletFor t u, ""] 0 = sh from rfl)
      · intro k hk
        omega
      · intro j hj1 hj2
        cases j with
        | zero => exact absurd rfl hj2
        | succ j =>
          cases j with
          | zero => exact _header_level_bulletFor t u
          | succ j => omega
      · exact hlast0

/-- Re-running the mutator with a target that normalizes like the first
call's (stripped) target is a no-op, for the program's sub-header shapes. -/
theorem second_call_none {lines0 : List String} {t u t2 u2 : String}
    {sub : Option String} {base : List String} {R : List String}
    (hsub : SubOK sub) (ht : ']' ∉ t.data) (hu1 : ')' ∉ u.data) (hu2 : u.data ≠ [])
    (hnorm : _normalize_md_link_url (pyStrip u) base =
      _normalize_md_link_url u2 base)
    (hfirst : add_link_under_inbox lines0 t u sub base = some R) :
    add_link_under_inbox R t2 u2 sub base = none := by
  rcases hsub with rfl | ⟨sh, lvl, rfl, hstrip, hshl, hl3⟩
  · exact second_call_none_nosub ht hu1 hu2 hnorm hfirst
  · exact second_call_none_sub hshl hl3 hstrip ht hu1 hu2 hnorm hfirst

/-- C1 (amended): de-duplication always holds — a call whose normalized
target already appears in the chosen block returns the document unchanged
with no write, and an insertion happens only when no entry of the block has
that normalized target; idempotence of a repeated identical call holds for
inputs whose rendered bullet re-parses to the same target (title without
`]`, non-empty target without `)` equal to its own strip) under the
program's sub-header arguments (`SubOK`). -/
theorem C1_add_link_dedup_idempotent (lines0 : List String) (t u : String)
    (sub : Option String) (base : List String) :
    ((∃ ln ∈ blockOf lines0 sub, lineTarget ln base =
        some (_normalize_md_link_url u base)) →
      add_link_under_inbox lines0 t u sub base = none) ∧
    (∀ R, add_link_under_inbox lines0 t u sub base = some R →
      ∀ ln ∈ blockOf lines0 sub, lineTarget ln base ≠
        some (_normalize_md_link_url u base)) ∧
    (SubOK sub → ']' ∉ t.data → ')' ∉ u.data → u.data ≠ [] → pyStrip u = u →
      applyAddLink (applyAddLink lines0 t u sub base) t u sub base =
        applyAddLink lines0 t u sub base) := by
  refine ⟨add_link_eq_none_of, ?_, ?_⟩
  · intro R h
    exact (add_link_some_inv h).2
  · intro hsub ht hu1 hu2 hu3
    unfold applyAddLink
    cases hfirst : add_link_under_inbox lines0 t u sub base with
    | none => simp [hfirst]
    | some R =>
      simp only [Option.getD_some]
      rw [second_call_none hsub ht hu1 hu2 (by rw [hu3]) hfirst]
      rfl

/-- C1 counterexample: the claim's unconditional idempotence is false — a
title containing `](` makes the inserted bullet re-parse to a different
target, so the second identical call inserts a second bullet. -/
theorem C1_counterexample :
    applyAddLink (applyAddLink ["## Inbox", ""] "x](y" "url" none ["b"])
        "x](y" "url" none ["b"] ≠
      applyAddLink ["## Inbox", ""] "x](y" "url" none ["b"] := by
  decide

/-- C1 witness: clean title and target, concrete document. -/
theorem C1_add_link_dedup_idempotent_witness :
    applyAddLink (applyAddLink ["## Inbox", ""] "T" "x.md" none ["b"])
        "T" "x.md" none ["b"] =
      applyAddLink ["## Inbox", ""] "T" "x.md" none ["b"] :=
  (C1_add_link_dedup_idempotent ["## Inbox", ""] "T" "x.md" none ["b"]).2.2
    (Or.inl rfl) (by decide) (by decide) (by decide) (by decide)

theorem norm_dot_eq (base : List String) :
    _normalize_md_link_url "./a/b.md" base = _normalize_md_link_url "a/b.md" base := by
  have h1 : splitSlash "./a/b.md" = [".", "a", "b.md"] := by decide
  have h2 : splitSlash "a/b.md" = ["a", "b.md"] := by decide
  simp only [_normalize_md_link_url]
  rw [if_neg (by decide), if_neg (by decide), h1, h2,
    if_neg (by decide), if_neg (by decide)]
  unfold resolveSegs
  rw [List.foldl_append, List.foldl_append]
  simp

/-- C5: link-target normalization identifies path forms — web links
(`http://`/`https://`) are returned unchanged; `./a/b.md` and `a/b.md`
normalize identically against any base directory (`.`/`..` collapsing is
modelled lexically; symbolic-link resolution is a filesystem effect outside
the embedding); consequently inserting `./a/b.md` and then `a/b.md` against
the same base never produces two entries: the second call is a no-op. -/
theorem C5_normalization_identifies_paths (base : List String)
    (lines0 : List String) (t t2 : String) :
    (∀ u : String, ("http://".data.isPrefixOf u.data ||
        "https://".data.isPrefixOf u.data) = true →
      _normalize_md_link_url u base = u) ∧
    _normalize_md_link_url "./a/b.md" base = _normalize_md_link_url "a/b.md" base ∧
    (']' ∉ t.data → ∀ R, add_link_under_inbox lines0 t "./a/b.md" none base =
        some R →
      add_link_under_inbox R t2 "a/b.md" none base = none) := by
  refine ⟨?_, norm_dot_eq base, ?_⟩
  · intro u hu
    unfold _normalize_md_link_url
    rw [if_pos hu]
  · intro ht R hfirst
    apply second_call_none (Or.inl rfl) ht (by decide) (by decide) ?_ hfirst
    rw [(by decide : pyStrip "./a/b.md" = "./a/b.md")]
    exact norm_dot_eq base

/-- C5 witness: concrete web link, concrete base, and a concrete document
where the `a/b.md` re-insertion after `./a/b.md` is a no-op. -/
theorem C5_normalization_identifies_paths_witness :
    _normalize_md_link_url "http://x/y" ["h"] = "http://x/y" ∧
    _normalize_md_link_url "./a/b.md" ["h"] = _normalize_md_link_url "a/b.md" ["h"] ∧
    add_link_under_inbox ["## Inbox", "- [T](./a/b.md)", ""] "T2" "a/b.md"
      none ["h"] = none :=
  ⟨(C5_normalization_identifies_paths ["h"] [] "T" "T2").1 "http://x/y" (by decide),
   (C5_normalization_identifies_paths ["h"] [] "T" "T2").2.1,
   (C5_normalization_identifies_paths ["h"] ["## Inbox", ""] "T" "T2").2.2
     (by decide) ["## Inbox", "- [T](./a/b.md)", ""] (by decide)⟩

/-- C4 evaluation at the failing input: ingesting `# My Note` (file
`202501011230.md`) into a freshly created daily note puts the bullet
immediately after `## Inbox` — the document contains no blank line between
the heading and the bullet, contradicting scenario A.  (The code inserts
the bullet at the block start, in front of the already-blank first line,
which then trails and is trimmed by serialization.) -/
theorem C4_fresh_note_insertion_lacks_blank :
    add_link_text (freshDailyNoteText "2025-01-01") "My Note" "202501011230.md"
        none ["h", "u", "d"] =
      "# 2025-01-01\n\n## Inbox\n- [My Note](202501011230.md)\n" ∧
    pyContains
      (add_link_text (freshDailyNoteText "2025-01-01") "My Note"
        "202501011230.md" none ["h", "u", "d"])
      ("## Inbox" ++ "\n\n" ++ "- [My Note](202501011230.md)") = false ∧
    pyContains
      (add_link_text (freshDailyNoteText "2025-01-01") "My Note"
        "202501011230.md" none ["h", "u", "d"])
      ("## Inbox" ++ "\n" ++ "- [My Note](202501011230.md)") = true := by
  refine ⟨by decide, by decide, by decide⟩

/-- C6 counterexample: locating `## Inbox` on a document with zero lines
does not append exactly one heading line plus one blank with a zero-length
range — the code appends `["", "## Inbox", ""]` and the range [2,3) has
length one. -/
theorem C6_counterexample :
    ¬ ((computeBlock [] none).lines = [INBOX_HEADER, ""] ∧
       (computeBlock [] none).blockEnd = (computeBlock [] none).blockStart) := by
  decide

/-- C6 (amended): locating `## Inbox` on the empty document appends exactly
three lines — a blank, the heading, a blank — and yields the content range
[2,3) (length one, holding the trailing blank line) starting immediately
after the heading line. -/
theorem C6_empty_doc_section_creation :
    (computeBlock [] none).lines = ["", INBOX_HEADER, ""] ∧
    (computeBlock [] none).inboxIdx = 1 ∧
    (computeBlock [] none).inboxStart = 2 ∧
    (computeBlock [] none).inboxEnd = 3 ∧
    (computeBlock [] none).blockStart = 2 ∧
    (computeBlock [] none).blockEnd = 3 := by
  decide

/-- C7: the date gate accepts a name only when its conform-stripped form is
twelve digits plus `.md` and the leading eight digits equal today's local
date; `202501011230.md` evaluated under any other date is rejected (the
handler then returns before any insertion, src/main.py:248-249). -/
theorem C7_date_gate (today name : String) :
    (_is_note_from_today today name = true →
      matchesNotePattern (stripConform name).data = true ∧
      (⟨(stripConform name).data.take 8⟩ : String) = today) ∧
    (today ≠ "20250101" →
      _is_note_from_today today "202501011230.md" = false) := by
  constructor
  · intro h
    simp only [_is_note_from_today] at h
    by_cases hm : matchesNotePattern (stripConform name).data = true
    · rw [if_pos hm] at h
      exact ⟨hm, eq_of_beq h⟩
    · rw [if_neg hm] at h
      exact absurd h Bool.false_ne_true
  · intro hne
    simp only [_is_note_from_today]
    rw [if_pos (by decide)]
    have he : (⟨(stripConform "202501011230.md").data.take 8⟩ : String) =
        "20250101" := by decide
    rw [he]
    exact beq_eq_false_iff_ne.mpr (Ne.symm hne)

/-- C7 witness: acceptance on the matching date, rejection one day later. -/
theorem C7_date_gate_witness :
    (matchesNotePattern (stripConform "202501011230.md").data = true ∧
      (⟨(stripConform "202501011230.md").data.take 8⟩ : String) = "20250101") ∧
    _is_note_from_today "20250102" "202501011230.md" = false :=
  ⟨(C7_date_gate "20250101" "202501011230.md").1 (by decide),
   (C7_date_gate "20250102" "202501011230.md").2 (by decide)⟩

theorem head?_dropWhile_false {p : Char → Bool} (l : List Char) :
    ∀ c, (l.dropWhile p).head? = some c → p c = false := by
  induction l with
  | nil => intro c h; exact Option.noConfusion h
  | cons x xs ih =>
    intro c h
    rw [List.dropWhile_cons] at h
    by_cases hx : p x = true
    · rw [if_pos hx] at h
      exact ih c h
    · rw [if_neg hx] at h
      injection h with h
      rw [← h]
      exact Bool.eq_false_iff.mpr hx

theorem pyRstripData_getLast?_not_ws (l : List Char) :
    ∀ c, (pyRstripData l).getLast? = some c → c.isWhitespace = false := by
  intro c h
  unfold pyRstripData at h
  rw [List.getLast?_reverse] at h
  exact head?_dropWhile_false l.reverse c h

/-- C8: the persisted text equals the lines joined with newlines with
trailing whitespace trimmed plus exactly one final newline; the character
before that newline (when one exists) is never whitespace, so the file ends
in exactly one newline and has no trailing blank lines. -/
theorem C8_serialization (lines : List String) :
    (serializeDoc lines).data =
      pyRstripData (String.intercalate "\n" lines).data ++ ['\n'] ∧
    (∀ c, (pyRstripData (String.intercalate "\n" lines).data).getLast? = some c →
      c.isWhitespace = false) ∧
    (serializeDoc lines).data.getLast? = some '\n' := by
  have h1 : (serializeDoc lines).data =
      pyRstripData (String.intercalate "\n" lines).data ++ ['\n'] := by
    simp only [serializeDoc, pyRstrip, String.data_append]
  refine ⟨h1, pyRstripData_getLast?_not_ws _, ?_⟩
  rw [h1]
  exact List.getLast?_concat _

/-- C8 witness: a document whose last lines carry trailing whitespace. -/
theorem C8_serialization_witness :
    (serializeDoc ["a", "b  ", ""]).data =
      pyRstripData (String.intercalate "\n" ["a", "b  ", ""]).data ++ ['\n'] ∧
    ('b' : Char).isWhitespace = false ∧
    (serializeDoc ["a", "b  ", ""]).data.getLast? = some '\n' :=
  ⟨(C8_serialization ["a", "b  ", ""]).1,
   (C8_serialization ["a", "b  ", ""]).2.1 'b' (by decide),
   (C8_serialization ["a", "b  ", ""]).2.2⟩

/-- C9: atomic replacement — along the modelled observable trace of
`_atomic_write` (partial writes land only on the temp path `path ++
".tmp"`; `os.replace` installs the full content in one step), the target
path holds either its old content or the complete new content at every
observation point, and the final state holds the new content. -/
theorem C9_atomic_write (fs : FsState) (path content : String) :
    (∀ i, i < (atomicWriteTrace fs path content).length →
      ((atomicWriteTrace fs path content).getD i fs) path = fs path ∨
      ((atomicWriteTrace fs path content).getD i fs) path = some content) ∧
    ((atomicWriteTrace fs path content).getD
      ((atomicWriteTrace fs path content).length - 1) fs) path = some content := by
  have hne : path ≠ path ++ ".tmp" := by
    intro h
    have hl := congrArg (fun s => s.data.length) h
    simp [String.data_append] at hl
  have hlen : (atomicWriteTrace fs path content).length = content.length + 2 := by
    simp [atomicWriteTrace]
  constructor
  · intro i hi
    unfold atomicWriteTrace
    rw [List.getD_eq_getElem?_getD, List.getElem?_append]
    by_cases hil : i < ((List.range (content.length + 1)).map
        (fun k => fsUpdate fs (path ++ ".tmp") (some ⟨content.data.take k⟩))).length
    · rw [if_pos hil]
      left
      rw [List.getElem?_map]
      rw [List.length_map, List.length_range] at hil
      rw [List.getElem?_range hil]
      show fsUpdate fs (path ++ ".tmp") (some ⟨content.data.take i⟩) path = fs path
      unfold fsUpdate
      rw [if_neg hne]
    · rw [if_neg hil]
      right
      rw [List.length_map, List.length_range] at hil
      rw [hlen] at hi
      have hieq : i - ((List.range (content.length + 1)).map
          (fun k => fsUpdate fs (path ++ ".tmp") (some ⟨content.data.take k⟩))).length
          = 0 := by
        rw [List.length_map, List.length_range]
        omega
      rw [hieq]
      show fsUpdate (fsUpdate fs (path ++ ".tmp") none) path (some content) path =
        some content
      unfold fsUpdate
      rw [if_pos rfl]
  · rw [hlen]
    unfold atomicWriteTrace
    rw [List.getD_eq_getElem?_getD, List.getElem?_append_right
      (by simp : ((List.range (content.length + 1)).map
        (fun k => fsUpdate fs (path ++ ".tmp") (some ⟨content.data.take k⟩))).length ≤
        content.length + 2 - 1)]
    have e : content.length + 2 - 1 - ((List.range (content.length + 1)).map
        (fun k => fsUpdate fs (path ++ ".tmp")
          (some ⟨content.data.take k⟩))).length = 0 := by
      simp
    rw [e]
    show fsUpdate (fsUpdate fs (path ++ ".tmp") none) path (some content) path =
      some content
    unfold fsUpdate
    rw [if_pos rfl]

/-- C9 witness: a one-character write over an empty filesystem, observed at
the first trace state. -/
theorem C9_atomic_write_witness :
    ((atomicWriteTrace (fun _ => none) "a.md" "x").getD 0 (fun _ => none)) "a.md" =
      (fun _ => (none : Option String)) "a.md" ∨
    ((atomicWriteTrace (fun _ => none) "a.md" "x").getD 0 (fun _ => none)) "a.md" =
      some "x" :=
  (C9_atomic_write (fun _ => none) "a.md" "x").1 0 (by simp [atomicWriteTrace])

/-- C10: the existing-file branch of `ensure_daily_note` tests substring
containment of `## Inbox` in the full text: when present anywhere (even
inside the longer heading `### Inbox` or mid-line) nothing is written;
otherwise the right-stripped text plus a blank separator and the heading is
written. -/
theorem C10_ensure_daily_note_substring (text : String) :
    (pyContains text INBOX_HEADER = true →
      ensure_daily_note_existing text = none) ∧
    (pyContains text INBOX_HEADER = false →
      ensure_daily_note_existing text =
        some (pyRstrip text ++ "\n\n" ++ INBOX_HEADER ++ "\n\n")) ∧
    ensure_daily_note_existing "# T\n\n### Inbox\n" = none ∧
    ensure_daily_note_existing "x ## Inbox y" = none := by
  refine ⟨?_, ?_, by decide, by decide⟩
  · intro h
    unfold ensure_daily_note_existing
    rw [if_pos h]
  · intro h
    unfold ensure_daily_note_existing
    rw [if_neg (by simp [h])]

/-- C10 witness: a text containing the heading is left alone; a text
without it gets the heading appended. -/
theorem C10_ensure_daily_note_substring_witness :
    ensure_daily_note_existing "# T\n\n## Inbox\n" = none ∧
    ensure_daily_note_existing "# T\n" =
      some (pyRstrip "# T\n" ++ "\n\n" ++ INBOX_HEADER ++ "\n\n") :=
  ⟨(C10_ensure_daily_note_substring "# T\n\n## Inbox\n").1 (by decide),
   (C10_ensure_daily_note_substring "# T\n").2.1 (by decide)⟩

end ObsidianWatcher
